import Mathlib

/-!
Verification of the paoli-realestate reconciliation core.

Shallow embedding of the decision logic of `src/export_data.py` (duplicate
detection, sales merging, zillow staleness alerts), `src/db.py` (temporal
sale/estimate matching, `add_sale`), `src/analysis.py` (`calculate_errors`)
and `src/scheduler.py` (`get_next_batch`).

Python integers are modelled as `Int`/`Nat`, Python floats appearing in the
analysed arithmetic as exact rationals `ℚ`, dates-as-strings as `String`
with an explicit `%Y-%m-%d` parser, and datetimes stored in the database as
integer timestamps.
-/

namespace Paoli

/-! ### Calendar arithmetic, modelling `datetime.strptime(s, "%Y-%m-%d")`
and `(da - db).days` from `export_data.is_duplicate`. -/

/-- Gregorian leap-year rule used by Python's `datetime`. -/
def isLeap (y : Nat) : Bool :=
  y % 4 == 0 && (y % 100 != 0 || y % 400 == 0)

/-- Number of days in a month, as validated by `datetime.strptime`. -/
def daysInMonth (y m : Nat) : Nat :=
  if m = 2 then (if isLeap y then 29 else 28)
  else if m = 4 ∨ m = 6 ∨ m = 9 ∨ m = 11 then 30
  else 31

/-- A parsed calendar date. -/
structure Date where
  year : Nat
  month : Nat
  day : Nat
deriving DecidableEq

/-- Split a character list at each literal dash, mirroring how the
`"%Y-%m-%d"` format string cuts the input into year, month and day fields. -/
def splitDash : List Char → List (List Char)
  | [] => [[]]
  | c :: rest =>
    let r := splitDash rest
    if c = '-' then [] :: r
    else
      match r with
      | [] => [[c]]
      | g :: gs => (c :: g) :: gs

/-- Numeric value of a digit-character list. -/
def digitsToNat (cs : List Char) : Nat :=
  cs.foldl (fun n c => n * 10 + (c.toNat - 48)) 0

/-- The `%Y` field of CPython's `_strptime` regex, `\d\d\d\d`: exactly four
digits. Digits are modelled as ASCII `0-9` (CPython's `\d` would further
admit non-ASCII Unicode decimal digits, which the ISO-formatted date strings
this program feeds the parser never contain). -/
def yearField (cs : List Char) : Option Nat :=
  if cs.length = 4 ∧ cs.all Char.isDigit then some (digitsToNat cs) else none

/-- The `%m` field of CPython's `_strptime` regex, `1[0-2]|0[1-9]|[1-9]`:
one or two digits with value 1..12 — every such value has exactly one
admissible one- or two-digit spelling, so this is equivalent to a one- or
two-digit field whose value lies in 1..12. -/
def monthField (cs : List Char) : Option Nat :=
  if (1 ≤ cs.length ∧ cs.length ≤ 2) ∧ cs.all Char.isDigit then
    let m := digitsToNat cs
    if 1 ≤ m ∧ m ≤ 12 then some m else none
  else none

/-- The `%d` field of CPython's `_strptime` regex,
`3[0-1]|[1-2]\d|0[1-9]|[1-9]| [1-9]`: one or two digits with value 1..31,
or a space followed by a nonzero digit (the space-padded single-digit
day). -/
def dayField (cs : List Char) : Option Nat :=
  match cs with
  | [' ', c] => if c.isDigit ∧ c ≠ '0' then some (c.toNat - 48) else none
  | _ =>
    if (1 ≤ cs.length ∧ cs.length ≤ 2) ∧ cs.all Char.isDigit then
      let d := digitsToNat cs
      if 1 ≤ d ∧ d ≤ 31 then some d else none
    else none

/-- Models `datetime.strptime(s, "%Y-%m-%d")` as CPython implements it: the
format compiles to the regex
`(?P<Y>\d\d\d\d)-(?P<m>1[0-2]|0[1-9]|[1-9])-(?P<d>3[0-1]|[1-2]\d|0[1-9]|[1-9]| [1-9])`,
the match must consume the whole string, and the captured numbers go to
`datetime(y, m, d)`, which raises `ValueError` when `y` is below
`MINYEAR = 1` (the all-zero year is the only four-digit offender) or `d`
exceeds the length of month `m`. No field can contain a dash and the
separators are literal dashes, so the regex match is equivalent to splitting
on dashes into exactly three fields. Returns `none` where CPython raises
`ValueError`. -/
def parseDate (s : String) : Option Date :=
  match splitDash s.data with
  | [ys, ms, ds] =>
    match yearField ys, monthField ms, dayField ds with
    | some y, some m, some d =>
      if 1 ≤ y ∧ d ≤ daysInMonth y m then some ⟨y, m, d⟩ else none
    | _, _, _ => none
  | _ => none

/-- Proleptic-Gregorian day number of a date (days since an arbitrary fixed
epoch); differences of `toDays` model `(da - db).days` on midnight
datetimes. -/
def toDays (dt : Date) : Int :=
  let y : Nat := if dt.month ≤ 2 then dt.year - 1 else dt.year
  let era : Nat := y / 400
  let yoe : Nat := y % 400
  let mp : Nat := (dt.month + 9) % 12
  let doy : Nat := (153 * mp + 2) / 5 + dt.day - 1
  let doe : Nat := yoe * 365 + yoe / 4 - yoe / 100 + doy
  ((era * 146097 + doe : Nat) : Int)

/-! ### Sale records and `export_data.is_duplicate` -/

/-- One normalized sale record as built by `load_hoa_sales` /
`load_redfin_sales` in `src/export_data.py`: a dict with integer `unit`,
string `date`, integer `price` and a source tag. -/
structure SaleRec where
  unit : Int
  date : String
  price : Int
  source : String
deriving DecidableEq

/-- `export_data.is_duplicate(a, b, max_days)` (src/export_data.py:62-79):
same-unit check, exact date+price shortcut, the $1000/1% price gate with
`pct_diff = price_diff / max(a["price"], 1) * 100` computed exactly over
`ℚ`, then the `max_days`-day date-window check, with an unparseable date
(the `ValueError` branch) giving `False`. -/
def is_duplicate (a b : SaleRec) (max_days : Int) : Bool :=
  if a.unit ≠ b.unit then false
  else if a.date = b.date ∧ a.price = b.price then true
  else
    let price_diff : Int := |a.price - b.price|
    let pct_diff : ℚ := (price_diff : ℚ) / ((max a.price 1 : Int) : ℚ) * 100
    if price_diff > 1000 ∧ pct_diff > 1 then false
    else
      match parseDate a.date, parseDate b.date with
      | some da, some db => decide (|toDays da - toDays db| ≤ max_days)
      | _, _ => false

/-- Modelled from the spec: the reference decision procedure of §4.1 for
duplicate detection, written step by step as the spec states it (different
units never duplicate; identical date and price duplicate; price gate
`price_diff > 1000` and `pct_diff > 1.0` never duplicate regardless of
date; otherwise unparseable dates are not duplicates, else duplicate iff
the dates differ by at most `max_days` days). -/
def spec_is_duplicate (a b : SaleRec) (max_days : Int) : Bool :=
  if a.unit ≠ b.unit then false
  else if a.date = b.date ∧ a.price = b.price then true
  else if |a.price - b.price| > 1000 ∧
          (((|a.price - b.price| : Int) : ℚ) / ((max a.price 1 : Int) : ℚ)) * 100 > 1 then false
  else
    match parseDate a.date, parseDate b.date with
    | some da, some db => decide (|toDays da - toDays db| ≤ max_days)
    | _, _ => false

/-- C1: `is_duplicate` agrees with the spec's reference decision procedure
on every pair of sale records and every tolerance. -/
theorem is_duplicate_matches_spec (a b : SaleRec) (max_days : Int) :
    is_duplicate a b max_days = spec_is_duplicate a b max_days := by
  rfl

/-! ### `export_data.merge_sales` -/

/-- One step of the merge loop of `merge_sales` (src/export_data.py:88-91):
append the scraped record unless it is a duplicate of some record already in
the accumulating merged list; the loop calls `is_duplicate` with its default
`max_days = 90`. -/
def mergeStep (merged : List SaleRec) (r_sale : SaleRec) : List SaleRec :=
  if merged.any (fun existing => is_duplicate r_sale existing 90) then merged
  else merged ++ [r_sale]

/-- The Python sort key `lambda s: (s["date"], s["unit"])` of
src/export_data.py:93 as a boolean comparison: lexicographic on the
(string date, integer unit) pair. -/
def saleKeyLe (s t : SaleRec) : Bool :=
  decide (s.date < t.date) || (decide (s.date = t.date) && decide (s.unit ≤ t.unit))

/-- `export_data.merge_sales` (src/export_data.py:82-94): start from the HOA
list, fold the Redfin records through the dedup step in order, then sort by
`(date, unit)`. -/
def merge_sales (hoa_sales redfin_sales : List SaleRec) : List SaleRec :=
  (redfin_sales.foldl mergeStep hoa_sales).mergeSort saleKeyLe

theorem saleKeyLe_iff {s t : SaleRec} :
    saleKeyLe s t = true ↔ (s.date < t.date ∨ (s.date = t.date ∧ s.unit ≤ t.unit)) := by
  simp [saleKeyLe]

theorem saleKeyLe_trans (a b c : SaleRec) :
    saleKeyLe a b → saleKeyLe b c → saleKeyLe a c := by
  intro hab hbc
  apply saleKeyLe_iff.mpr
  rcases saleKeyLe_iff.mp hab with h1 | ⟨h1, h1u⟩ <;>
    rcases saleKeyLe_iff.mp hbc with h2 | ⟨h2, h2u⟩
  · exact Or.inl (lt_trans h1 h2)
  · exact Or.inl (h2 ▸ h1)
  · exact Or.inl (h1 ▸ h2)
  · exact Or.inr ⟨h1.trans h2, le_trans h1u h2u⟩

theorem saleKeyLe_total (a b : SaleRec) : saleKeyLe a b || saleKeyLe b a := by
  simp only [Bool.or_eq_true]
  rcases lt_trichotomy a.date b.date with h | h | h
  · exact Or.inl (saleKeyLe_iff.mpr (Or.inl h))
  · rcases le_total a.unit b.unit with hu | hu
    · exact Or.inl (saleKeyLe_iff.mpr (Or.inr ⟨h, hu⟩))
    · exact Or.inr (saleKeyLe_iff.mpr (Or.inr ⟨h.symm, hu⟩))
  · exact Or.inr (saleKeyLe_iff.mpr (Or.inl h))

/-- C3: the merged ledger is sorted ascending by the `(date, unit)` key —
equal dates tie-broken by unit ascending — for all inputs, including an
empty authoritative list, and equal inputs give equal outputs. -/
theorem merge_sales_sorted_deterministic (hoa redfin hoa2 redfin2 : List SaleRec) :
    List.Pairwise
      (fun s t : SaleRec => s.date < t.date ∨ (s.date = t.date ∧ s.unit ≤ t.unit))
      (merge_sales hoa redfin) ∧
    (hoa = hoa2 → redfin = redfin2 → merge_sales hoa redfin = merge_sales hoa2 redfin2) := by
  constructor
  · exact (List.sorted_mergeSort saleKeyLe_trans saleKeyLe_total _).imp
      (fun h => saleKeyLe_iff.mp h)
  · intro h1 h2
    rw [h1, h2]

/-- Two concrete sale records used to instantiate the merge theorems. -/
def recA : SaleRec := ⟨12, "2021-07-09", 250000, "hoa"⟩

def recB : SaleRec := ⟨14, "2020-03-05", 310000, "redfin"⟩

theorem merge_sales_sorted_deterministic_witness :
    List.Pairwise
      (fun s t : SaleRec => s.date < t.date ∨ (s.date = t.date ∧ s.unit ≤ t.unit))
      (merge_sales [recA] [recB]) ∧
    merge_sales [recA] [recB] = merge_sales [recA] [recB] :=
  ⟨(merge_sales_sorted_deterministic [recA] [recB] [recA] [recB]).1,
   (merge_sales_sorted_deterministic [recA] [recB] [recA] [recB]).2 rfl rfl⟩

theorem is_duplicate_self (r : SaleRec) (max_days : Int) :
    is_duplicate r r max_days = true := by
  simp [is_duplicate]

theorem mergeStep_of_mem {acc : List SaleRec} {x : SaleRec} (hx : x ∈ acc) :
    mergeStep acc x = acc := by
  unfold mergeStep
  rw [if_pos]
  exact List.any_eq_true.mpr ⟨x, hx, is_duplicate_self x 90⟩

theorem foldl_mergeStep_of_subset :
    ∀ (l acc : List SaleRec), (∀ x ∈ l, x ∈ acc) → l.foldl mergeStep acc = acc := by
  intro l
  induction l with
  | nil => intro acc _; rfl
  | cons x xs ih =>
    intro acc h
    rw [List.foldl_cons, mergeStep_of_mem (h x (List.mem_cons_self x xs))]
    exact ih acc (fun y hy => h y (List.mem_cons_of_mem x hy))

/-- C5: merging a sale list into itself does not grow the ledger — every
supplementary record is an exact duplicate of its own copy, so the result
has the same length as the input. -/
theorem merge_sales_self_length (sales : List SaleRec) :
    (merge_sales sales sales).length = sales.length := by
  unfold merge_sales
  rw [foldl_mergeStep_of_subset sales sales (fun x hx => hx), List.length_mergeSort]

theorem count_le_mergeStep (a : SaleRec) (acc : List SaleRec) (x : SaleRec) :
    acc.count a ≤ (mergeStep acc x).count a := by
  unfold mergeStep
  split
  · exact le_refl _
  · simp [List.count_append]

theorem count_le_foldl_mergeStep (a : SaleRec) :
    ∀ (l acc : List SaleRec), acc.count a ≤ (l.foldl mergeStep acc).count a := by
  intro l
  induction l with
  | nil => intro acc; exact le_refl _
  | cons x xs ih =>
    intro acc
    rw [List.foldl_cons]
    exact le_trans (count_le_mergeStep a acc x) (ih (mergeStep acc x))

/-- C10: every authoritative (HOA) record survives the merge with its
multiplicity intact — deduplication is only ever applied to supplementary
records, never between two authoritative records. -/
theorem merge_sales_retains_hoa (hoa_sales redfin_sales : List SaleRec) (a : SaleRec) :
    hoa_sales.count a ≤ (merge_sales hoa_sales redfin_sales).count a :=
  calc hoa_sales.count a
      ≤ (redfin_sales.foldl mergeStep hoa_sales).count a :=
        count_le_foldl_mergeStep a redfin_sales hoa_sales
    _ = (merge_sales hoa_sales redfin_sales).count a :=
        (((redfin_sales.foldl mergeStep hoa_sales).mergeSort_perm saleKeyLe).count_eq a).symm

/-! ### The zillow staleness alert of `export_data.main` -/

/-- `max(unit_sales, key=lambda s: s["date"])` (src/export_data.py:172):
fold keeping the current element unless a strictly later date appears, so
the first maximum in scan order wins, exactly as Python's `max`. -/
def latestSale (s : SaleRec) (rest : List SaleRec) : SaleRec :=
  rest.foldl (fun best t => if best.date < t.date then t else best) s

/-- The per-unit staleness test of the `zillow_alerts` loop in
`export_data.main` (src/export_data.py:164-179): a unit with no sales in the
merged ledger is skipped; otherwise it is flagged when `zillow_date` is
absent or the most recent sale's date is strictly later than it. -/
def zillowAlert (merged : List SaleRec) (unit : Int) (zillow_date : Option String) : Bool :=
  match merged.filter (fun s => s.unit == unit) with
  | [] => false
  | s :: rest =>
    match zillow_date with
    | none => true
    | some zd => decide (zd < (latestSale s rest).date)

theorem latestSale_mem : ∀ (rest : List SaleRec) (s : SaleRec),
    latestSale s rest ∈ s :: rest := by
  intro rest
  induction rest with
  | nil => intro s; simp [latestSale]
  | cons t ts ih =>
    intro s
    have e : latestSale s (t :: ts) = latestSale (if s.date < t.date then t else s) ts := rfl
    rw [e]
    rcases List.mem_cons.mp (ih (if s.date < t.date then t else s)) with h1 | h1
    · rw [h1]
      split
      · exact List.mem_cons_of_mem _ (List.mem_cons_self _ _)
      · exact List.mem_cons_self _ _
    · exact List.mem_cons_of_mem _ (List.mem_cons_of_mem _ h1)

theorem latestSale_ge : ∀ (rest : List SaleRec) (s t : SaleRec),
    t ∈ s :: rest → t.date ≤ (latestSale s rest).date := by
  intro rest
  induction rest with
  | nil =>
    intro s t ht
    rw [List.mem_singleton.mp ht]
    exact le_refl _
  | cons u us ih =>
    intro s t ht
    have e : latestSale s (u :: us) = latestSale (if s.date < u.date then u else s) us := rfl
    rw [e]
    have hhead : (if s.date < u.date then u else s).date ≤
        (latestSale (if s.date < u.date then u else s) us).date :=
      ih _ _ (List.mem_cons_self _ _)
    rcases List.mem_cons.mp ht with h1 | h1
    · have hs : s.date ≤ (if s.date < u.date then u else s).date := by
        split
        · exact le_of_lt (by assumption)
        · exact le_refl _
      rw [h1]
      exact le_trans hs hhead
    rcases List.mem_cons.mp h1 with h2 | h2
    · have hu : u.date ≤ (if s.date < u.date then u else s).date := by
        split
        · exact le_refl _
        · exact le_of_not_lt (by assumption)
      rw [h2]
      exact le_trans hu hhead
    · exact ih _ _ (List.mem_cons_of_mem _ h2)

/-- C6: a unit is flagged for fresh Zillow data iff it has at least one sale
in the merged ledger and either no Zillow estimate date is recorded or some
(equivalently, its most recent) merged sale for that unit postdates the
recorded estimate date. -/
theorem zillowAlert_iff (merged : List SaleRec) (unit : Int) (zillow_date : Option String) :
    zillowAlert merged unit zillow_date = true ↔
      (merged.filter (fun s => s.unit == unit) ≠ [] ∧
       (zillow_date = none ∨
        ∃ zd, zillow_date = some zd ∧ ∃ s ∈ merged, s.unit = unit ∧ zd < s.date)) := by
  unfold zillowAlert
  split
  next hfil =>
    simp [hfil]
  next s rest hfil =>
    have hne : merged.filter (fun s => s.unit == unit) ≠ [] := by
      rw [hfil]
      exact List.cons_ne_nil s rest
    match zillow_date with
    | none => simp [hne]
    | some zd =>
      simp only [decide_eq_true_eq]
      constructor
      · intro hlt
        refine ⟨hne, Or.inr ⟨zd, rfl, latestSale s rest, ?_, ?_, hlt⟩⟩
        · have : latestSale s rest ∈ merged.filter (fun s => s.unit == unit) := by
            rw [hfil]
            exact latestSale_mem rest s
          exact (List.mem_filter.mp this).1
        · have : latestSale s rest ∈ merged.filter (fun s => s.unit == unit) := by
            rw [hfil]
            exact latestSale_mem rest s
          exact beq_iff_eq.mp (List.mem_filter.mp this).2
      · rintro ⟨-, hcases⟩
        rcases hcases with hnone | ⟨zd2, hzd2, s2, hs2mem, hs2unit, hs2lt⟩
        · exact absurd hnone (Option.some_ne_none zd)
        · have hzd : zd2 = zd := by
            injection hzd2.symm
          have hmemf : s2 ∈ merged.filter (fun s => s.unit == unit) :=
            List.mem_filter.mpr ⟨hs2mem, beq_iff_eq.mpr hs2unit⟩
          rw [hfil] at hmemf
          exact lt_of_lt_of_le (hzd ▸ hs2lt) (latestSale_ge rest s s2 hmemf)

theorem zillowAlert_iff_witness :
    zillowAlert [⟨3, "2024-03-01", 420000, "hoa"⟩] 3 (some "2024-01-15") = true :=
  (zillowAlert_iff [⟨3, "2024-03-01", 420000, "hoa"⟩] 3 (some "2024-01-15")).mpr
    ⟨by decide,
     Or.inr ⟨"2024-01-15", rfl, ⟨3, "2024-03-01", 420000, "hoa"⟩,
       List.mem_singleton.mpr rfl, rfl, by rw [String.lt_iff_toList_lt]; decide⟩⟩

/-! ### Symmetry analysis of `is_duplicate` -/

theorem is_duplicate_of_gate (a b : SaleRec) (max_days : Int)
    (hunit : a.unit = b.unit)
    (hx : ¬(a.date = b.date ∧ a.price = b.price))
    (hgate : 1000 < |a.price - b.price| ∧
      1 < ((|a.price - b.price| : Int) : ℚ) / ((max a.price 1 : Int) : ℚ) * 100) :
    is_duplicate a b max_days = false := by
  simp only [is_duplicate]
  rw [if_neg (by simp [hunit]), if_neg hx, if_pos hgate]

theorem is_duplicate_of_dates (a b : SaleRec) (max_days : Int)
    (hunit : a.unit = b.unit)
    (hx : ¬(a.date = b.date ∧ a.price = b.price))
    (hgate : ¬(1000 < |a.price - b.price| ∧
      1 < ((|a.price - b.price| : Int) : ℚ) / ((max a.price 1 : Int) : ℚ) * 100))
    {da db : Date} (hpa : parseDate a.date = some da) (hpb : parseDate b.date = some db) :
    is_duplicate a b max_days = decide (|toDays da - toDays db| ≤ max_days) := by
  simp only [is_duplicate]
  rw [if_neg (by simp [hunit]), if_neg hx, if_neg hgate, hpa, hpb]

/-- First record of the symmetry counterexample. -/
def cexA : SaleRec := ⟨1, "2024-01-01", 99990, "hoa"⟩

/-- Second record of the symmetry counterexample: same unit and date, price
$1010 higher, which is over 1% of `cexA.price` but exactly 1% of
`cexB.price`. -/
def cexB : SaleRec := ⟨1, "2024-01-01", 101000, "redfin"⟩

/-- C4 counterexample: `is_duplicate` is not symmetric at the default
tolerance, because `pct_diff` divides by the first argument's price. -/
theorem is_duplicate_symm_counterexample :
    ¬ (is_duplicate cexA cexB 90 = is_duplicate cexB cexA 90) := by
  have h1 : is_duplicate cexA cexB 90 = false := by
    apply is_duplicate_of_gate cexA cexB 90 rfl (by decide)
    constructor
    · decide
    · rw [show |cexA.price - cexB.price| = 1010 from by decide,
          show max cexA.price 1 = 99990 from by decide]
      norm_num
  have h2 : is_duplicate cexB cexA 90 = true := by
    rw [is_duplicate_of_dates cexB cexA 90 rfl (by decide) ?hgate
          (by decide : parseDate cexB.date = some ⟨2024, 1, 1⟩)
          (by decide : parseDate cexA.date = some ⟨2024, 1, 1⟩)]
    · decide
    case hgate =>
      rw [show |cexB.price - cexA.price| = 1010 from by decide,
          show max cexB.price 1 = 101000 from by decide]
      norm_num
  rw [h1, h2]
  decide

/-- C4 amended: the duplicate test is symmetric whenever the two argument
orders agree on the percentage-difference threshold test (in particular
whenever the prices are equal); asymmetry can only come from `pct_diff`
being computed relative to the first argument's price. -/
theorem is_duplicate_symm_of_pct_agree (a b : SaleRec) (max_days : Int)
    (h : (1 < ((|a.price - b.price| : Int) : ℚ) / ((max a.price 1 : Int) : ℚ) * 100) ↔
         (1 < ((|b.price - a.price| : Int) : ℚ) / ((max b.price 1 : Int) : ℚ) * 100)) :
    is_duplicate a b max_days = is_duplicate b a max_days := by
  have habs : |a.price - b.price| = |b.price - a.price| := abs_sub_comm _ _
  simp only [is_duplicate]
  by_cases hu : a.unit = b.unit
  · rw [if_neg (not_not_intro hu), if_neg (not_not_intro hu.symm)]
    by_cases hx : a.date = b.date ∧ a.price = b.price
    · rw [if_pos hx,
        if_pos (show b.date = a.date ∧ b.price = a.price from ⟨hx.1.symm, hx.2.symm⟩)]
    · rw [if_neg hx,
        if_neg (show ¬(b.date = a.date ∧ b.price = a.price) from
          fun hx2 => hx ⟨hx2.1.symm, hx2.2.symm⟩)]
      by_cases hg : 1000 < |a.price - b.price| ∧
          1 < ((|a.price - b.price| : Int) : ℚ) / ((max a.price 1 : Int) : ℚ) * 100
      · rw [if_pos hg,
          if_pos (show 1000 < |b.price - a.price| ∧
              1 < ((|b.price - a.price| : Int) : ℚ) / ((max b.price 1 : Int) : ℚ) * 100 from
            ⟨habs ▸ hg.1, h.mp hg.2⟩)]
      · rw [if_neg hg,
          if_neg (show ¬(1000 < |b.price - a.price| ∧
              1 < ((|b.price - a.price| : Int) : ℚ) / ((max b.price 1 : Int) : ℚ) * 100) from
            fun hg2 => hg ⟨habs.symm ▸ hg2.1, h.mpr hg2.2⟩)]
        cases hpa : parseDate a.date <;> cases hpb : parseDate b.date <;>
          simp [abs_sub_comm]
  · rw [if_pos hu, if_pos (fun hba => hu hba.symm)]

theorem is_duplicate_symm_of_pct_agree_witness :
    is_duplicate recA recA 90 = is_duplicate recA recA 90 :=
  is_duplicate_symm_of_pct_agree recA recA 90 Iff.rfl

/-! ### The database model of `src/db.py` -/

/-- One row of the `estimates` table (src/db.py:44-56): owning property,
source tag, price (a float, modelled as `ℚ`) and capture timestamp
(a datetime, modelled as an integer timestamp). -/
structure Estimate where
  property_id : Int
  source : String
  estimated_price : ℚ
  captured_at : Int
deriving DecidableEq

/-- One row of the `sales` table (src/db.py:59-72). -/
structure Sale where
  property_id : Int
  sale_price : ℚ
  sale_date : Int
  asking_price : Option ℚ
deriving DecidableEq

/-- `db.add_sale` (src/db.py:127-138) over a list-modelled `sales` table:
build the row, append (commit) it, and return it. The source applies no
validation of any kind to `sale_price`. -/
def add_sale (sales : List Sale) (property_id : Int) (sale_price : ℚ)
    (sale_date : Int) (asking_price : Option ℚ) : List Sale × Sale :=
  let sale : Sale := ⟨property_id, sale_price, sale_date, asking_price⟩
  (sales ++ [sale], sale)

/-- The qualification condition of the estimate query in
`db.get_sales_with_estimates` (src/db.py:162-166): same property, requested
source, captured at or before the sale date. -/
def qualifies (e : Estimate) (sale : Sale) (source : String) : Prop :=
  e.property_id = sale.property_id ∧ e.source = source ∧
    e.captured_at ≤ sale.sale_date

/-- Boolean form of `qualifies`, as used inside the query filter. -/
def qualB (sale : Sale) (source : String) (e : Estimate) : Bool :=
  e.property_id == sale.property_id &&
    (e.source == source && decide (e.captured_at ≤ sale.sale_date))

/-- `ORDER BY captured_at DESC` followed by `first()`: a row attaining the
maximal capture time among the filtered rows, `none` on an empty result
set. -/
def pickLatest : List Estimate → Option Estimate
  | [] => none
  | e :: rest =>
    match pickLatest rest with
    | none => some e
    | some b => if e.captured_at < b.captured_at then some b else some e

/-- The per-(sale, source) estimate query of `db.get_sales_with_estimates`
(src/db.py:160-169). -/
def matchEstimate (estimates : List Estimate) (sale : Sale) (source : String) :
    Option Estimate :=
  pickLatest (estimates.filter (qualB sale source))

/-- One element of the list returned by `db.get_sales_with_estimates`
(src/db.py:173-183); the `address` field (a join to the property row) is
omitted as nothing analysed here depends on it. -/
structure MatchedPair where
  property_id : Int
  source : String
  estimated_price : ℚ
  sale_price : ℚ
  sale_date : Int
  estimate_date : Int
  error : ℚ
  pct_error : ℚ
deriving DecidableEq

/-- `db.get_sales_with_estimates` (src/db.py:154-184): for every sale and
each source in `("zillow", "redfin")`, emit a pair for the matched estimate
when one exists, with `error = estimated_price - sale_price` and
`pct_error = error / sale_price * 100`. -/
def get_sales_with_estimates (sales : List Sale) (estimates : List Estimate) :
    List MatchedPair :=
  sales.flatMap (fun sale =>
    (["zillow", "redfin"]).filterMap (fun source =>
      (matchEstimate estimates sale source).map (fun estimate =>
        let error := estimate.estimated_price - sale.sale_price
        let pct_error := error / sale.sale_price * 100
        ⟨sale.property_id, source, estimate.estimated_price, sale.sale_price,
         sale.sale_date, estimate.captured_at, error, pct_error⟩)))

theorem qualB_iff {sale : Sale} {source : String} {e : Estimate} :
    qualB sale source e = true ↔ qualifies e sale source := by
  simp [qualB, qualifies]

theorem pickLatest_eq_none_iff {l : List Estimate} : pickLatest l = none ↔ l = [] := by
  cases l with
  | nil => simp [pickLatest]
  | cons e rest =>
    cases hrest : pickLatest rest with
    | none => simp [pickLatest, hrest]
    | some b =>
      simp only [pickLatest, hrest]
      split <;> simp

theorem pickLatest_spec : ∀ {l : List Estimate} {e : Estimate}, pickLatest l = some e →
    e ∈ l ∧ ∀ f ∈ l, f.captured_at ≤ e.captured_at := by
  intro l
  induction l with
  | nil => intro e h; simp [pickLatest] at h
  | cons a rest ih =>
    intro e h
    cases hrest : pickLatest rest with
    | none =>
      simp only [pickLatest, hrest] at h
      obtain rfl : a = e := Option.some.inj h
      obtain rfl : rest = [] := pickLatest_eq_none_iff.mp hrest
      refine ⟨List.mem_singleton.mpr rfl, ?_⟩
      intro f hf
      rw [List.mem_singleton.mp hf]
    | some b =>
      simp only [pickLatest, hrest] at h
      obtain ⟨hbmem, hbmax⟩ := ih hrest
      by_cases hlt : a.captured_at < b.captured_at
      · rw [if_pos hlt] at h
        obtain rfl : b = e := Option.some.inj h
        refine ⟨List.mem_cons_of_mem _ hbmem, ?_⟩
        intro f hf
        rcases List.mem_cons.mp hf with rfl | hf2
        · exact le_of_lt hlt
        · exact hbmax f hf2
      · rw [if_neg hlt] at h
        obtain rfl : a = e := Option.some.inj h
        refine ⟨List.mem_cons_self _ _, ?_⟩
        intro f hf
        rcases List.mem_cons.mp hf with rfl | hf2
        · exact le_refl _
        · exact le_trans (hbmax f hf2) (le_of_not_lt hlt)

/-- C2: the temporal matcher returns nothing exactly when no estimate of the
requested source for the sale's property was captured at or before the sale
date (so no post-sale estimate is ever used); a returned estimate qualifies
and has the latest capture time among the qualifying ones; and every emitted
pair carries `error = estimated_price - sale_price`,
`pct_error = error / sale_price * 100`, and a pre-sale estimate date. -/
theorem temporal_match_spec (sales : List Sale) (estimates : List Estimate) :
    (∀ (sale : Sale) (source : String),
      (matchEstimate estimates sale source = none ↔
        ∀ e ∈ estimates, ¬ qualifies e sale source) ∧
      (∀ e, matchEstimate estimates sale source = some e →
        e ∈ estimates ∧ qualifies e sale source ∧
        ∀ f ∈ estimates, qualifies f sale source →
          f.captured_at ≤ e.captured_at)) ∧
    (∀ pr ∈ get_sales_with_estimates sales estimates,
      pr.error = pr.estimated_price - pr.sale_price ∧
      pr.pct_error = pr.error / pr.sale_price * 100 ∧
      pr.estimate_date ≤ pr.sale_date) := by
  have hsome : ∀ (sale : Sale) (source : String) (e : Estimate),
      matchEstimate estimates sale source = some e →
      e ∈ estimates ∧ qualifies e sale source ∧
      ∀ f ∈ estimates, qualifies f sale source → f.captured_at ≤ e.captured_at := by
    intro sale source e he
    rw [matchEstimate] at he
    obtain ⟨hmem, hmax⟩ := pickLatest_spec he
    rw [List.mem_filter] at hmem
    refine ⟨hmem.1, qualB_iff.mp hmem.2, ?_⟩
    intro f hf hqf
    exact hmax f (List.mem_filter.mpr ⟨hf, qualB_iff.mpr hqf⟩)
  constructor
  · intro sale source
    refine ⟨?_, hsome sale source⟩
    rw [matchEstimate, pickLatest_eq_none_iff, List.filter_eq_nil_iff]
    constructor
    · intro h e he hq
      exact h e he (qualB_iff.mpr hq)
    · intro h e he hq
      exact h e he (qualB_iff.mp hq)
  · intro pr hpr
    simp only [get_sales_with_estimates, List.mem_flatMap, List.mem_filterMap] at hpr
    obtain ⟨sale, _, source, _, hmap⟩ := hpr
    cases hm : matchEstimate estimates sale source with
    | none => rw [hm] at hmap; simp at hmap
    | some est =>
      rw [hm] at hmap
      simp only [Option.map_some'] at hmap
      obtain rfl := Option.some.inj hmap
      exact ⟨rfl, rfl, (hsome sale source est hm).2.1.2.2⟩

/-- Concrete sale for the temporal-matching witness (spec's §8 scenario). -/
def wSale : Sale := ⟨5, 410000, 120, none⟩

/-- Pre-sale estimate of the witness scenario. -/
def wEst1 : Estimate := ⟨5, "zillow", 400000, 0⟩

/-- Post-sale estimate of the witness scenario. -/
def wEst2 : Estimate := ⟨5, "zillow", 420000, 151⟩

theorem temporal_match_spec_witness :
    wEst1 ∈ [wEst1, wEst2] ∧ qualifies wEst1 wSale "zillow" := by
  have h := ((temporal_match_spec [wSale] [wEst1, wEst2]).1 wSale "zillow").2 wEst1
    (by decide)
  exact ⟨h.1, h.2.1⟩

/-- C9: `db.add_sale` silently records a sale with a negative price — the
entry path applies no positivity validation and signals no error. -/
theorem add_sale_accepts_nonpositive :
    add_sale [] 7 (-100) 0 none = ([⟨7, -100, 0, none⟩], ⟨7, -100, 0, none⟩) ∧
    ((-100 : ℚ) ≤ 0) := by
  refine ⟨rfl, ?_⟩
  norm_num

/-! ### `analysis.calculate_errors` -/

/-- Arithmetic mean, modelling `pandas Series.mean` over a nonempty series. -/
def mean (xs : List ℚ) : ℚ := xs.sum / xs.length

/-- Median, modelling `pandas Series.median`: middle element of the sorted
values, or the average of the two middle elements for an even count. -/
def median (xs : List ℚ) : ℚ :=
  let s := xs.mergeSort (fun a b => decide (a ≤ b))
  if s.length % 2 = 1 then s.getD (s.length / 2) 0
  else (s.getD (s.length / 2 - 1) 0 + s.getD (s.length / 2) 0) / 2

/-- Sample variance (`ddof = 1`), the square of what `pandas Series.std`
reports; meaningful only for two or more observations. -/
def sampleVariance (xs : List ℚ) : ℚ :=
  (xs.map (fun x => (x - mean xs) ^ 2)).sum / ((xs.length : ℚ) - 1)

/-- The per-source statistics dict built by `analysis.calculate_errors`
(src/analysis.py:57-65). `pandas Series.std` uses `ddof = 1`, so with one
observation it divides by zero and yields `NaN`; that undefined value is
modelled as `none`, and under `some` the stored rational is the sample
variance — the exact square of the standard deviation the code reports —
which is defined exactly when the code's std is a number. -/
structure Stats where
  count : Nat
  mean_error : ℚ
  median_error : ℚ
  mean_pct_error : ℚ
  median_pct_error : ℚ
  std_error : Option ℚ
  std_pct_error : Option ℚ
deriving DecidableEq

/-- `df["source"].unique()` (src/analysis.py:55): the distinct sources in
order of first appearance. -/
def uniqueSources (pairs : List MatchedPair) : List String :=
  pairs.foldl (fun acc p => if p.source ∈ acc then acc else acc ++ [p.source]) []

/-- `analysis.calculate_errors` (src/analysis.py:47-66) over an in-memory
pair list: one statistics entry per source value appearing in the data,
computed over that source's subset. -/
def calculate_errors (pairs : List MatchedPair) : List (String × Stats) :=
  (uniqueSources pairs).map (fun source =>
    let subset := pairs.filter (fun p => p.source == source)
    let errs := subset.map (fun p => p.error)
    let pcts := subset.map (fun p => p.pct_error)
    (source,
      ⟨subset.length, mean errs, median errs, mean pcts, median pcts,
       if 2 ≤ subset.length then some (sampleVariance errs) else none,
       if 2 ≤ subset.length then some (sampleVariance pcts) else none⟩))

theorem mem_uniqueSources_aux :
    ∀ (l : List MatchedPair) (acc : List String) (s : String),
      s ∈ l.foldl (fun acc p => if p.source ∈ acc then acc else acc ++ [p.source]) acc →
      s ∈ acc ∨ ∃ p ∈ l, p.source = s := by
  intro l
  induction l with
  | nil => intro acc s h; exact Or.inl h
  | cons p ps ih =>
    intro acc s h
    rw [List.foldl_cons] at h
    rcases ih _ s h with hacc | ⟨q, hq, hqs⟩
    · by_cases hp : p.source ∈ acc
      · rw [if_pos hp] at hacc
        exact Or.inl hacc
      · rw [if_neg hp] at hacc
        rcases List.mem_append.mp hacc with h1 | h1
        · exact Or.inl h1
        · exact Or.inr ⟨p, List.mem_cons_self _ _, (List.mem_singleton.mp h1).symm⟩
    · exact Or.inr ⟨q, List.mem_cons_of_mem _ hq, hqs⟩

/-- C7: every entry of the aggregator belongs to a source with at least one
matched pair — `count = 0` entries never appear — and an entry with exactly
one matched pair has absent (`NaN`) standard deviations, not zero. -/
theorem calculate_errors_spec (pairs : List MatchedPair) (source : String) (st : Stats)
    (h : (source, st) ∈ calculate_errors pairs) :
    1 ≤ st.count ∧ (∃ p ∈ pairs, p.source = source) ∧
    (st.count = 1 → st.std_error = none ∧ st.std_pct_error = none) := by
  simp only [calculate_errors, List.mem_map] at h
  obtain ⟨src, hsrc, heq⟩ := h
  rw [Prod.mk.injEq] at heq
  obtain ⟨rfl, hst⟩ := heq
  have hex : ∃ p ∈ pairs, p.source = src := by
    rcases mem_uniqueSources_aux pairs [] src hsrc with h1 | h1
    · exact absurd h1 (List.not_mem_nil src)
    · exact h1
  obtain ⟨p, hp, hps⟩ := hex
  have hlen : 1 ≤ (pairs.filter (fun q => q.source == src)).length := by
    have hmem : p ∈ pairs.filter (fun q => q.source == src) :=
      List.mem_filter.mpr ⟨hp, beq_iff_eq.mpr hps⟩
    exact List.length_pos.mpr (List.ne_nil_of_mem hmem)
  subst hst
  refine ⟨hlen, ⟨p, hp, hps⟩, ?_⟩
  intro h1
  have h2 : ¬ 2 ≤ (pairs.filter (fun q => q.source == src)).length := by
    have : (pairs.filter (fun q => q.source == src)).length = 1 := h1
    omega
  constructor
  · show (if 2 ≤ (pairs.filter (fun q => q.source == src)).length then _ else none) = none
    rw [if_neg h2]
  · show (if 2 ≤ (pairs.filter (fun q => q.source == src)).length then _ else none) = none
    rw [if_neg h2]

/-- A single matched pair used to instantiate the aggregator theorem. -/
def wPair : MatchedPair := ⟨1, "zillow", 2, 1, 0, 0, 3, 5⟩

theorem calculate_errors_spec_witness :
    1 ≤ (⟨1, 3, 3, 5, 5, none, none⟩ : Stats).count ∧
    ((⟨1, 3, 3, 5, 5, none, none⟩ : Stats).std_error = none ∧
     (⟨1, 3, 3, 5, 5, none, none⟩ : Stats).std_pct_error = none) := by
  have hmem : ("zillow", (⟨1, 3, 3, 5, 5, none, none⟩ : Stats)) ∈ calculate_errors [wPair] := by
    have hcalc : calculate_errors [wPair] = [("zillow", ⟨1, 3, 3, 5, 5, none, none⟩)] := by
      norm_num [calculate_errors, uniqueSources, wPair, mean, median, sampleVariance]
    rw [hcalc]
    exact List.mem_singleton.mpr rfl
  have h := calculate_errors_spec [wPair] "zillow" _ hmem
  exact ⟨h.1, h.2.2 rfl⟩

/-! ### `scheduler.get_next_batch` -/

/-- One row of the `properties` table (src/db.py:27-41), restricted to the
fields the scheduler touches plus identity. -/
structure Property where
  id : Int
  address : String
  unit_number : Option String
  zillow_url : Option String
  redfin_url : Option String
deriving DecidableEq

/-- The URL filter of the batch query (src/scheduler.py:33-36): at least one
of the two estimate-source URLs configured. -/
def hasUrl (p : Property) : Bool := p.zillow_url.isSome || p.redfin_url.isSome

/-- The `latest_estimate` subquery (src/scheduler.py:20-27):
`max(captured_at)` grouped by property, `none` for a property with no
estimates (the outer join's NULL). -/
def lastScraped (estimates : List Estimate) (pid : Int) : Option Int :=
  (estimates.filter (fun e => e.property_id == pid)).foldl
    (fun acc e =>
      match acc with
      | none => some e.captured_at
      | some t => some (max t e.captured_at)) none

/-- `ORDER BY last_scraped ASC NULLS FIRST` (src/scheduler.py:37) as a
strict comparison on the optional timestamp: NULL sorts before every real
timestamp. -/
def keyLtB : Option Int → Option Int → Bool
  | none, none => false
  | none, some _ => true
  | some _, none => false
  | some a, some b => decide (a < b)

/-- The `batch_size = batch_size or config.BATCH_SIZE` falsy default of
src/scheduler.py:15: the Python `or` replaces both `None` (the parameter's
default) and `0` by the configured batch size, which enters the model as
the parameter `batchSizeConfig`. -/
def effectiveBatchSize (batch_size : Option Nat) (batchSizeConfig : Nat) : Nat :=
  match batch_size with
  | none => batchSizeConfig
  | some b => if b = 0 then batchSizeConfig else b

/-- An order in which the engine may return the rows of the batch query
(src/scheduler.py:30-39): a permutation of the URL-filtered properties that
is nondecreasing in the `lastScraped` key with NULL first. The query's
`ORDER BY last_scraped ASC NULLS FIRST` names no secondary sort key, so SQL
leaves the relative order of rows with equal keys unspecified: every such
permutation is an admissible result. -/
def batchOrdered (props : List Property) (estimates : List Estimate)
    (l : List Property) : Prop :=
  List.Perm l (props.filter hasUrl) ∧
  List.Pairwise (fun p q =>
    keyLtB (lastScraped estimates q.id) (lastScraped estimates p.id) = false) l

/-- `scheduler.get_next_batch` (src/scheduler.py:13-45) as the relation
between its inputs and a list the program may return: the first
`effectiveBatchSize` rows of an admissible ordering of the eligible
properties. A relation rather than a function, because the unspecified tie
order leaves the program's output underdetermined. -/
def get_next_batch_rel (props : List Property) (estimates : List Estimate)
    (batch_size : Option Nat) (batchSizeConfig : Nat) (out : List Property) : Prop :=
  ∃ l, batchOrdered props estimates l ∧
    out = l.take (effectiveBatchSize batch_size batchSizeConfig)

/-- C8 amended: every output the batch query can produce contains only
properties with a URL configured, has `min` of the effective batch size
(after the falsy default) and the eligible count as its length, and is
ordered ascending by latest capture time with never-captured rows first.
The tie order among equal timestamps — and with it cross-run determinism —
is not constrained by the query. -/
theorem get_next_batch_rel_spec (props : List Property) (estimates : List Estimate)
    (batch_size : Option Nat) (batchSizeConfig : Nat) (out : List Property)
    (h : get_next_batch_rel props estimates batch_size batchSizeConfig out) :
    (∀ p ∈ out, hasUrl p = true) ∧
    out.length = min (effectiveBatchSize batch_size batchSizeConfig)
      (props.filter hasUrl).length ∧
    List.Pairwise (fun p q =>
      keyLtB (lastScraped estimates q.id) (lastScraped estimates p.id) = false) out := by
  obtain ⟨l, ⟨hperm, hpw⟩, rfl⟩ := h
  refine ⟨?_, ?_, ?_⟩
  · intro p hp
    have hp2 := hperm.mem_iff.mp (List.mem_of_mem_take hp)
    exact (List.mem_filter.mp hp2).2
  · rw [List.length_take, hperm.length_eq]
  · exact List.Pairwise.sublist (List.take_sublist _ _) hpw

/-- Batch-scenario property with a URL and no capture yet. -/
def wProp0 : Property := ⟨0, "a0", none, some "z0", none⟩

theorem get_next_batch_rel_spec_witness :
    hasUrl wProp0 = true ∧
    ([wProp0] : List Property).length =
      min (effectiveBatchSize (some 2) 5) ([wProp0].filter hasUrl).length := by
  have hrel : get_next_batch_rel [wProp0] [] (some 2) 5 [wProp0] := by
    refine ⟨[wProp0], ⟨?_, ?_⟩, ?_⟩
    · rw [show ([wProp0].filter hasUrl) = [wProp0] from by decide]
    · decide
    · decide
  have h := get_next_batch_rel_spec [wProp0] [] (some 2) 5 [wProp0] hrel
  exact ⟨h.1 wProp0 (by decide), h.2.1⟩

/-- First of two never-captured eligible properties with tied (NULL) keys. -/
def tieP0 : Property := ⟨10, "t0", none, some "z", none⟩

/-- Second never-captured eligible property. -/
def tieP1 : Property := ⟨11, "t1", none, some "z", none⟩

/-- C8 counterexample: with two never-captured eligible properties the query
places no constraint on their relative order, so both mutually reversed
lists are admissible outputs of src/scheduler.py:13-45 on the same inputs —
the code does not guarantee the claimed input-order tie-break or
determinism. -/
theorem get_next_batch_tie_counterexample :
    get_next_batch_rel [tieP0, tieP1] [] (some 2) 5 [tieP0, tieP1] ∧
    get_next_batch_rel [tieP0, tieP1] [] (some 2) 5 [tieP1, tieP0] ∧
    [tieP0, tieP1] ≠ [tieP1, tieP0] := by
  have hfil : ([tieP0, tieP1].filter hasUrl) = [tieP0, tieP1] := by decide
  refine ⟨⟨[tieP0, tieP1], ⟨?_, ?_⟩, ?_⟩, ⟨[tieP1, tieP0], ⟨?_, ?_⟩, ?_⟩, ?_⟩
  · rw [hfil]
  · decide
  · decide
  · rw [hfil]
    exact List.Perm.swap tieP0 tieP1 []
  · decide
  · decide
  · decide

end Paoli
